import Mathlib

/-!
# A verification model of the crawler monitoring core

This file gives a shallow embedding, in Lean, of the core of the
`crawler` repository: the sqlite-backed time-series store
(`app/database.py`), the probe classifier (`app/ping_service.py`) and the
round scheduler (`app/scheduler.py`), together with theorems about the
behaviour of these operations.

The two sqlite tables `urls` and `ping_results` are modelled as lists of
rows; ids assigned by `AUTOINCREMENT` are drawn from explicit counters.
Timestamps are modelled as integers, and every windowed query takes the
window's lower bound `cutoff` (the value of `datetime('now', '-h hours')`,
evaluated once per query) as a parameter.  SQL `REAL` values are modelled
as rationals.
-/

namespace Crawler

/-- A row of the `urls` table (`database.py`, `init_database`):
`id INTEGER PRIMARY KEY AUTOINCREMENT`, `url TEXT NOT NULL UNIQUE`,
`group_name TEXT NOT NULL`, `country_code TEXT` (nullable),
`created_at TIMESTAMP`. -/
structure UrlRow where
  id : Nat
  url : String
  group_name : String
  country_code : Option String
  created_at : Int
deriving DecidableEq

/-- A row of the `ping_results` table (`database.py`, `init_database`):
`id INTEGER PRIMARY KEY AUTOINCREMENT`, `url_id INTEGER NOT NULL`,
`status_code INTEGER` (nullable), `response_time REAL` (nullable),
`error_message TEXT` (nullable), `timestamp TIMESTAMP`. -/
structure PingRow where
  id : Nat
  url_id : Nat
  status_code : Option Int
  response_time : Option ℚ
  error_message : Option String
  timestamp : Int
deriving DecidableEq

/-- The state of the database: the two tables plus the `AUTOINCREMENT`
counters that assign the next fresh id in each table. -/
structure DB where
  urls : List UrlRow
  pings : List PingRow
  nextUrlId : Nat
  nextPingId : Nat
deriving DecidableEq

/-- `Database.add_url` (`database.py` lines 59-79).  The INSERT succeeds
when no existing row carries the given url; on the UNIQUE-constraint
`IntegrityError` the except branch UPDATEs `group_name` and `country_code`
of every row with that url and then SELECTs the id of the (first) row with
that url.  `now` stands for the `CURRENT_TIMESTAMP` default of
`created_at`.  The second component is the returned id; `none` models
`fetchone()` finding no row (which cannot happen on the conflict branch,
since the url is then present). -/
def add_url (db : DB) (url group_name : String) (country_code : Option String)
    (now : Int) : DB × Option Nat :=
  if db.urls.any (fun w => w.url == url) then
    let urls1 := db.urls.map (fun w =>
      if w.url == url then
        { w with group_name := group_name, country_code := country_code }
      else w)
    ({ db with urls := urls1 },
     (urls1.find? (fun w => w.url == url)).map (fun w => w.id))
  else
    ({ db with
        urls := db.urls ++ [⟨db.nextUrlId, url, group_name, country_code, now⟩],
        nextUrlId := db.nextUrlId + 1 },
     some db.nextUrlId)

/-- `Database.add_ping_result` (`database.py` lines 92-103).  The sqlite
connection is opened by plain `sqlite3.connect` without
`PRAGMA foreign_keys = ON`, and sqlite leaves foreign-key enforcement OFF
by default, so the FOREIGN KEY declared on `url_id` is not checked: the
INSERT always succeeds, whatever `url_id` is.  `now` stands for the
`CURRENT_TIMESTAMP` default of `timestamp`. -/
def add_ping_result (db : DB) (url_id : Nat) (status_code : Option Int)
    (response_time : Option ℚ) (error_message : Option String) (now : Int) : DB :=
  { db with
    pings := db.pings ++
      [⟨db.nextPingId, url_id, status_code, response_time, error_message, now⟩],
    nextPingId := db.nextPingId + 1 }

/-- The window predicate `pr.timestamp >= datetime('now', '-h hours')`,
with the right-hand side evaluated once per query as `cutoff`. -/
def inWindow (cutoff : Int) (r : PingRow) : Bool :=
  cutoff ≤ r.timestamp

/-- The SQL condition `status_code >= 200 AND status_code < 300`: on a
NULL `status_code` the comparison is NULL, which does not satisfy a WHERE
clause or a CASE branch. -/
def isSuccessCode : Option Int → Bool
  | some c => 200 ≤ c && c < 300
  | none => false

/-- The SQL condition
`status_code < 200 OR status_code >= 300 OR status_code IS NULL`. -/
def isFailedCode : Option Int → Bool
  | some c => c < 200 || 300 ≤ c
  | none => true

/-- The dictionary returned by `Database.get_statistics`
(`database.py` lines 176-216). -/
structure Statistics where
  total_urls : Nat
  total_pings : Nat
  successful_pings : Nat
  failed_pings : Nat
  success_rate : ℚ
deriving DecidableEq

/-- `Database.get_statistics` (`database.py` lines 176-216): four COUNT
queries over the window plus the Python expression
`(successful_pings / total_pings * 100) if total_pings > 0 else 0`. -/
def get_statistics (db : DB) (cutoff : Int) : Statistics :=
  let total_urls := db.urls.length
  let total_pings := (db.pings.filter (fun r => inWindow cutoff r)).length
  let successful_pings :=
    (db.pings.filter (fun r => inWindow cutoff r && isSuccessCode r.status_code)).length
  let failed_pings :=
    (db.pings.filter (fun r => inWindow cutoff r && isFailedCode r.status_code)).length
  { total_urls := total_urls
    total_pings := total_pings
    successful_pings := successful_pings
    failed_pings := failed_pings
    success_rate :=
      if 0 < total_pings then (successful_pings : ℚ) / (total_pings : ℚ) * 100 else 0 }

/-! ## Sorting (the ORDER BY clauses)

SQL ORDER BY only permutes the selected rows; we model it with a
structural insertion sort parameterised by a boolean comparator. -/

/-- Insert an element in front of the first element it compares
less-or-equal to. -/
def insertSorted (le : α → α → Bool) (a : α) : List α → List α
  | [] => [a]
  | b :: t => if le a b then a :: b :: t else b :: insertSorted le a t

/-- Insertion sort by a boolean comparator. -/
def sortBy (le : α → α → Bool) (l : List α) : List α :=
  l.foldr (insertSorted le) []

/-- Lexicographic comparison of char lists by code point. -/
def strLeAux : List Char → List Char → Bool
  | [], _ => true
  | _ :: _, [] => false
  | a :: as, b :: bs =>
      if a.val < b.val then true
      else if b.val < a.val then false
      else strLeAux as bs

/-- Lexicographic comparison of strings (sqlite's default TEXT collation
BINARY, restricted to the byte-compatible range used here). -/
def strLe (a b : String) : Bool := strLeAux a.data b.data

/-- Comparison of nullable TEXT values: sqlite sorts NULL first in
ascending order. -/
def optStrLe : Option String → Option String → Bool
  | none, _ => true
  | some _, none => false
  | some a, some b => strLe a b

/-! ## Aggregate helpers -/

/-- Round to the nearest integer, ties to even: the behaviour of Python's
built-in `round` on exact values. -/
def roundHalfEven (x : ℚ) : ℤ :=
  let f := ⌊x⌋
  if x - f < 1 / 2 then f
  else if 1 / 2 < x - f then f + 1
  else if f % 2 = 0 then f else f + 1

/-- Python's `round(x, 1)` on exact values. -/
def pyRound1 (x : ℚ) : ℚ :=
  (roundHalfEven (x * 10) : ℚ) / 10

/-- SQL `AVG` over the non-NULL values of an expression: NULL on the empty
multiset, the mean otherwise. -/
def sqlAvg (l : List ℚ) : Option ℚ :=
  if l.isEmpty then none else some (l.sum / (l.length : ℚ))

/-- The Python expression `round(row_avg, 1) if row_avg else 0` applied to
the value of `AVG(pr.response_time)`: both NULL and 0.0 are falsy. -/
def avgField : Option ℚ → ℚ
  | none => 0
  | some a => if a = 0 then 0 else pyRound1 a

/-- The Python expression `value or 'Unknown'` applied to a nullable
country code: both None and the empty string are falsy. -/
def countryLabel : Option String → String
  | none => "Unknown"
  | some s => if s = "" then "Unknown" else s

/-! ## Windowed queries on the store (`app/database.py`) -/

/-- The rows of `ping_results` for one target inside the window: the set
ranged over by the correlated subquery of `get_latest_status_by_group` and
by the LEFT JOIN conditions of the statistics queries. -/
def inWindowPingsFor (db : DB) (cutoff : Int) (uid : Nat) : List PingRow :=
  db.pings.filter (fun r => r.url_id == uid && inWindow cutoff r)

/-- SQL `MAX(id)` over a row set: NULL on the empty set. -/
def sqlMaxId (l : List PingRow) : Option Nat :=
  l.foldl (fun acc r =>
    match acc with
    | none => some r.id
    | some m => some (max m r.id)) none

/-- Helper for reasoning about `sqlMaxId`: the maximum of a starting value
and the ids of a row list. -/
def maxFrom (m : Nat) (l : List PingRow) : Nat :=
  l.foldl (fun a r => max a r.id) m

/-- The inner join `ping_results pr JOIN urls u ON pr.url_id = u.id`. -/
def pingsJoinUrls (db : DB) : List (UrlRow × PingRow) :=
  db.pings.flatMap (fun r =>
    (db.urls.filter (fun u => u.id == r.url_id)).map (fun u => (u, r)))

/-- The ORDER BY key of `get_latest_status_by_group`:
`u.group_name, u.country_code, u.url`. -/
def latestOrderLe (p q : UrlRow × PingRow) : Bool :=
  if p.1.group_name == q.1.group_name then
    if p.1.country_code == q.1.country_code then strLe p.1.url q.1.url
    else optStrLe p.1.country_code q.1.country_code
  else strLe p.1.group_name q.1.group_name

/-- The rows selected by the query of `Database.get_latest_status_by_group`
(`database.py` lines 137-149): the join, restricted to in-window results
whose id equals `MAX(id)` over the same target's in-window results, ordered
by group, country, url. -/
def latest_status_rows (db : DB) (cutoff : Int) : List (UrlRow × PingRow) :=
  sortBy latestOrderLe
    ((pingsJoinUrls db).filter (fun p =>
      inWindow cutoff p.2 &&
      (sqlMaxId (inWindowPingsFor db cutoff p.2.url_id) == some p.2.id)))

/-- One entry of the nested dictionary built by
`get_latest_status_by_group` (`database.py` lines 166-172). -/
structure StatusEntry where
  url : String
  status_code : Option Int
  response_time : Option ℚ
  error_message : Option String
  timestamp : Int
deriving DecidableEq

/-- Projection of a selected row to its dictionary entry. -/
def entryOf (p : UrlRow × PingRow) : StatusEntry :=
  { url := p.1.url
    status_code := p.2.status_code
    response_time := p.2.response_time
    error_message := p.2.error_message
    timestamp := p.2.timestamp }

/-- The inner dictionary `country_code → list of entries`, as an
association list in insertion order (Python dicts preserve it). -/
abbrev CountryBuckets := List (String × List StatusEntry)

/-- The outer dictionary `group_name → country_code → list of entries`. -/
abbrev GroupedStatus := List (String × CountryBuckets)

/-- Append an entry to the bucket of a country key, creating the bucket at
the end when absent (the `if country_code not in ...` step). -/
def addInner (cn : String) (e : StatusEntry) : CountryBuckets → CountryBuckets
  | [] => [(cn, [e])]
  | (c, l) :: t =>
      if cn = c then (c, l ++ [e]) :: t else (c, l) :: addInner cn e t

/-- Append an entry under a group and country key, creating missing keys at
the end (the `if group_name not in grouped_results` step). -/
def addGrouped (gn cn : String) (e : StatusEntry) : GroupedStatus → GroupedStatus
  | [] => [(gn, addInner cn e [])]
  | (g, inner) :: t =>
      if gn = g then (g, addInner cn e inner) :: t
      else (g, inner) :: addGrouped gn cn e t

/-- `Database.get_latest_status_by_group` (`database.py` lines 132-174):
the selected rows bucketed by group name and by
`country_code or 'Unknown'`, in row order. -/
def get_latest_status_by_group (db : DB) (cutoff : Int) : GroupedStatus :=
  (latest_status_rows db cutoff).foldl
    (fun acc p => addGrouped p.1.group_name (countryLabel p.1.country_code) (entryOf p) acc)
    []

/-- All (country key, entry) pairs of an inner dictionary. -/
def innerEntries (l : CountryBuckets) : List (String × StatusEntry) :=
  l.flatMap (fun b => b.2.map (fun e => (b.1, e)))

/-- All (group key, country key, entry) triples of the nested
dictionary. -/
def groupedEntries (g : GroupedStatus) : List (String × String × StatusEntry) :=
  g.flatMap (fun b => (innerEntries b.2).map (fun ce => (b.1, ce.1, ce.2)))

/-- The LEFT JOIN
`urls u LEFT JOIN ping_results pr ON u.id = pr.url_id AND pr.timestamp >= cutoff`
restricted to one url row: its matching in-window ping rows, or the single
NULL-extended row when there is none. -/
def leftJoinPings (db : DB) (cutoff : Int) (u : UrlRow) : List (UrlRow × Option PingRow) :=
  let ms := inWindowPingsFor db cutoff u.id
  if ms.isEmpty then [(u, none)] else ms.map (fun r => (u, some r))

/-- The CASE branch `WHEN pr.status_code >= 200 AND pr.status_code < 300`:
false on the NULL-extended row (NULL comparisons). -/
def caseSuccess : Option PingRow → Bool
  | some r => isSuccessCode r.status_code
  | none => false

/-- The CASE branch
`WHEN pr.status_code < 200 OR pr.status_code >= 300 OR pr.status_code IS NULL`:
true on the NULL-extended row, whose `status_code` IS NULL. -/
def caseFailed : Option PingRow → Bool
  | some r => isFailedCode r.status_code
  | none => true

/-- A row of `Database.get_group_statistics`
(`database.py` lines 272-291). -/
structure GroupStats where
  group_name : String
  total_urls : Nat
  total_countries : Nat
  total_requests : Nat
  successful_requests : Nat
  failed_requests : Nat
  success_rate : ℚ
  failure_rate : ℚ
  avg_response_time : ℚ
deriving DecidableEq

/-- The distinct `group_name` keys of the GROUP BY, in ORDER BY order. -/
def distinctGroups (db : DB) : List String :=
  sortBy strLe ((db.urls.map (fun u => u.group_name)).dedup)

/-- The joined rows falling into one group's GROUP BY bucket: since the
group key is a column of `urls`, these are the LEFT JOIN rows of the urls
carrying that group name. -/
def groupRows (db : DB) (cutoff : Int) (g : String) : List (UrlRow × Option PingRow) :=
  (db.urls.filter (fun u => u.group_name == g)).flatMap (leftJoinPings db cutoff)

/-- One output row of `Database.get_group_statistics`
(`database.py` lines 247-293): the SQL aggregates over the bucket followed
by the Python rate computation.  `COUNT(pr.id)` counts non-NULL ping rows;
`COUNT(DISTINCT u.country_code)` drops NULLs; `SUM(CASE ...)` counts the
rows satisfying the branch; `AVG` averages non-NULL response times.  The
`row or 0` guards are no-ops here since every bucket is nonempty and the
counts are never NULL. -/
def group_stats_row (db : DB) (cutoff : Int) (g : String) : GroupStats :=
  let rows := groupRows db cutoff g
  let total_requests := (rows.filterMap (fun p => p.2)).length
  let successful_requests := (rows.filter (fun p => caseSuccess p.2)).length
  let failed_requests := (rows.filter (fun p => caseFailed p.2)).length
  let avg := sqlAvg (rows.filterMap (fun p => p.2.bind (fun r => r.response_time)))
  let success_rate :=
    if 0 < total_requests then
      (successful_requests : ℚ) / (total_requests : ℚ) * 100
    else 0
  let failure_rate :=
    if 0 < total_requests then
      (failed_requests : ℚ) / (total_requests : ℚ) * 100
    else 0
  { group_name := g
    total_urls := ((rows.map (fun p => p.1.id)).dedup).length
    total_countries := ((rows.filterMap (fun p => p.1.country_code)).dedup).length
    total_requests := total_requests
    successful_requests := successful_requests
    failed_requests := failed_requests
    success_rate := pyRound1 success_rate
    failure_rate := pyRound1 failure_rate
    avg_response_time := avgField avg }

/-- `Database.get_group_statistics` (`database.py` lines 247-293): one row
per distinct group of the registered urls. -/
def get_group_statistics (db : DB) (cutoff : Int) : List GroupStats :=
  (distinctGroups db).map (group_stats_row db cutoff)

/-- A row of `Database.get_country_statistics`
(`database.py` lines 320-338). -/
structure CountryStats where
  country_code : String
  total_urls : Nat
  total_requests : Nat
  successful_requests : Nat
  failed_requests : Nat
  success_rate : ℚ
  failure_rate : ℚ
  avg_response_time : ℚ
deriving DecidableEq

/-- The distinct `country_code` keys (NULL included, as its own GROUP BY
bucket) of the urls in one group, in ORDER BY order. -/
def distinctCountries (db : DB) (g : String) : List (Option String) :=
  sortBy optStrLe
    (((db.urls.filter (fun u => u.group_name == g)).map (fun u => u.country_code)).dedup)

/-- One output row of `Database.get_country_statistics`
(`database.py` lines 295-340) for one `country_code` bucket of the given
group; the label is `row[0] or 'Unknown'`. -/
def country_stats_row (db : DB) (cutoff : Int) (g : String) (c : Option String) : CountryStats :=
  let rows :=
    ((db.urls.filter (fun u => u.group_name == g && u.country_code == c)).flatMap
      (leftJoinPings db cutoff))
  let total_requests := (rows.filterMap (fun p => p.2)).length
  let successful_requests := (rows.filter (fun p => caseSuccess p.2)).length
  let failed_requests := (rows.filter (fun p => caseFailed p.2)).length
  let avg := sqlAvg (rows.filterMap (fun p => p.2.bind (fun r => r.response_time)))
  let success_rate :=
    if 0 < total_requests then
      (successful_requests : ℚ) / (total_requests : ℚ) * 100
    else 0
  let failure_rate :=
    if 0 < total_requests then
      (failed_requests : ℚ) / (total_requests : ℚ) * 100
    else 0
  { country_code := countryLabel c
    total_urls := ((rows.map (fun p => p.1.id)).dedup).length
    total_requests := total_requests
    successful_requests := successful_requests
    failed_requests := failed_requests
    success_rate := pyRound1 success_rate
    failure_rate := pyRound1 failure_rate
    avg_response_time := avgField avg }

/-- `Database.get_country_statistics` (`database.py` lines 295-340): one
row per distinct country code of the given group's urls. -/
def get_country_statistics (db : DB) (g : String) (cutoff : Int) : List CountryStats :=
  (distinctCountries db g).map (country_stats_row db cutoff g)

/-- The WHERE clause
`u.country_code = c OR (u.country_code IS NULL AND c = 'Unknown')` of
`get_all_requests_for_country`: on a NULL country code the first disjunct
is NULL, and the row matches exactly when the query country is the literal
`'Unknown'`. -/
def countryMatch : Option String → String → Bool
  | some cc, c => cc == c
  | none, c => c == "Unknown"

/-- The ORDER BY key `pr.timestamp DESC`. -/
def tsDescLe (p q : UrlRow × PingRow) : Bool :=
  q.2.timestamp ≤ p.2.timestamp

/-- The rows selected by `Database.get_all_requests_for_country`
(`database.py` lines 347-355): the join restricted to the given group, to
country-matching urls and to the window, newest first. -/
def all_requests_rows (db : DB) (g c : String) (cutoff : Int) : List (UrlRow × PingRow) :=
  sortBy tsDescLe
    ((pingsJoinUrls db).filter (fun p =>
      p.1.group_name == g && countryMatch p.1.country_code c && inWindow cutoff p.2))

/-- Python's truthiness of the expression
`row[1] and 200 <= row[1] < 300`: None and 0 are falsy. -/
def pyIsSuccess : Option Int → Bool
  | none => false
  | some c => if c = 0 then false else decide (200 ≤ c) && decide (c < 300)

/-- A dictionary of the list returned by
`Database.get_all_requests_for_country` (`database.py` lines 361-368). -/
structure RequestRow where
  url : String
  status_code : Option Int
  response_time : Option ℚ
  error_message : Option String
  timestamp : Int
  is_success : Bool
deriving DecidableEq

/-- `Database.get_all_requests_for_country`
(`database.py` lines 342-368). -/
def get_all_requests_for_country (db : DB) (g c : String) (cutoff : Int) : List RequestRow :=
  (all_requests_rows db g c cutoff).map (fun p =>
    { url := p.1.url
      status_code := p.2.status_code
      response_time := p.2.response_time
      error_message := p.2.error_message
      timestamp := p.2.timestamp
      is_success := pyIsSuccess p.2.status_code })

/-- A concrete store exercising the latest-status query: one target and
two in-window results with ids 5 and 9, where the id-9 result carries the
*older* timestamp. -/
def exampleDB : DB :=
  ⟨[⟨1, "http://a", "g", none, 0⟩],
   [⟨5, 1, some 200, none, none, 10⟩, ⟨9, 1, some 500, none, none, 3⟩], 2, 10⟩

/-! ## Probe classifier (`app/ping_service.py`)

`PingService.ping_url` issues one `session.get` and classifies its outcome
through a chain of `except` clauses.  We model the transport outcome of the
GET as an inductive type and the classifier as a total function on it.  The
exception classes come from `requests.exceptions`, whose class hierarchy is
relevant: `ConnectTimeout` inherits from both `ConnectionError` and
`Timeout`, and `SSLError` inherits from `ConnectionError`; a raised
exception is handled by the first `except` clause (in source order) whose
class it is an instance of. -/

/-- The exceptions `session.get` can raise, at the granularity the
`except` clauses of `ping_url` distinguish.  `other` is any exception that
is none of `requests.exceptions.Timeout`, `ConnectionError`, `SSLError`
(carrying its `str(e)` text). -/
inductive RequestsExc
  | timeout
  | connectTimeout
  | connectionError
  | sslError
  | other (detail : String)
deriving DecidableEq

/-- Instance test for `requests.exceptions.Timeout`
(`ConnectTimeout` inherits from `Timeout`). -/
def isTimeoutInstance : RequestsExc → Bool
  | .timeout => true
  | .connectTimeout => true
  | _ => false

/-- Instance test for `requests.exceptions.ConnectionError`
(`ConnectTimeout` and `SSLError` both inherit from `ConnectionError`). -/
def isConnectionErrorInstance : RequestsExc → Bool
  | .connectTimeout => true
  | .connectionError => true
  | .sslError => true
  | _ => false

/-- Instance test for `requests.exceptions.SSLError`. -/
def isSSLErrorInstance : RequestsExc → Bool
  | .sslError => true
  | _ => false

/-- The `str(e)` text interpolated by the final `except Exception` clause
(only exceptions outside the three named classes reach it). -/
def excDetail : RequestsExc → String
  | .other d => d
  | _ => ""

/-- The outcome of the `session.get` call inside `ping_url`: either a
completed HTTP exchange with a numeric status code, or a raised
exception. -/
inductive TransportOutcome
  | response (status : Int)
  | raised (e : RequestsExc)
deriving DecidableEq

/-- The dictionary built by `PingService.ping_url` for one probe
(`ping_service.py` lines 36-131), minus the constant `url_id`/`url`
echo fields. -/
structure PingOutcome where
  status_code : Option Int
  response_time : ℚ
  error_message : Option String
  success : Bool
deriving DecidableEq

/-- `PingService.ping_url` (`ping_service.py` lines 36-131) as a function
of the transport outcome of `session.get` and of the measured elapsed wall
time in milliseconds.  The `except` clauses are tried in source order:
`Timeout` (line 67), then `ConnectionError` (line 81), then `SSLError`
(line 95), then `Exception` (line 109); a raised exception takes the first
branch whose class it is an instance of.  The function is total: every
outcome yields a classified record, nothing propagates. -/
def ping_url (elapsed : ℚ) (o : TransportOutcome) : PingOutcome :=
  match o with
  | .response status =>
      { status_code := some status
        response_time := elapsed
        error_message := none
        success := decide (200 ≤ status) && decide (status < 300) }
  | .raised e =>
      if isTimeoutInstance e then
        { status_code := none, response_time := elapsed
          error_message := some "Request timeout", success := false }
      else if isConnectionErrorInstance e then
        { status_code := none, response_time := elapsed
          error_message := some "Connection error", success := false }
      else if isSSLErrorInstance e then
        { status_code := none, response_time := elapsed
          error_message := some "SSL certificate error", success := false }
      else
        { status_code := none, response_time := elapsed
          error_message := some ("Unknown error: " ++ excDetail e), success := false }

/-! ## Scheduler (`app/scheduler.py`)

`MonitoringScheduler` drives rounds two ways: the APScheduler interval job
`url_ping_job`, configured with `max_instances = 1` (`scheduler.py` line
26), so that a tick firing while a previous instance of the *job* is still
executing is skipped rather than run concurrently; and
`run_manual_ping` (`scheduler.py` lines 113-116), which calls
`run_ping_round()` directly and synchronously in the caller's thread,
outside the scheduler and its `max_instances` guard.  We model the in-flight
rounds as a state machine over start/finish events of both kinds. -/

/-- How many rounds are executing, split by how they were started:
`jobInstances` counts running instances of the APScheduler job
`url_ping_job`; `manualRounds` counts rounds started by direct
`run_manual_ping` calls. -/
structure SchedulerState where
  jobInstances : Nat
  manualRounds : Nat
deriving DecidableEq

/-- Events observable at the round boundary. -/
inductive SchedulerEvent
  | tickFires
  | tickFinishes
  | manualCall
  | manualFinishes
deriving DecidableEq

/-- The `max_instances` value from `job_defaults` (`scheduler.py` line 26). -/
def maxInstances : Nat := 1

/-- One event step.  A firing tick starts a job instance only when fewer
than `max_instances` are running (APScheduler skips it otherwise); a
`run_manual_ping` call starts a round unconditionally, since it bypasses
the scheduler. -/
def schedStep (s : SchedulerState) : SchedulerEvent → SchedulerState
  | .tickFires =>
      if s.jobInstances < maxInstances then
        { s with jobInstances := s.jobInstances + 1 }
      else s
  | .tickFinishes => { s with jobInstances := s.jobInstances - 1 }
  | .manualCall => { s with manualRounds := s.manualRounds + 1 }
  | .manualFinishes => { s with manualRounds := s.manualRounds - 1 }

/-- Run a sequence of events from a state. -/
def schedRun (s : SchedulerState) (evs : List SchedulerEvent) : SchedulerState :=
  evs.foldl schedStep s

/-- The quiescent state: no round executing. -/
def schedInit : SchedulerState := ⟨0, 0⟩

/-- Total number of concurrently executing rounds. -/
def roundsInFlight (s : SchedulerState) : Nat :=
  s.jobInstances + s.manualRounds

/-! ## General lemmas -/

/-- Splitting a filtered count along a second predicate. -/
theorem length_filter_and_add (w p : α → Bool) (l : List α) :
    (l.filter (fun a => w a && p a)).length + (l.filter (fun a => w a && !p a)).length
      = (l.filter w).length := by
  induction l with
  | nil => rfl
  | cons a t ih =>
      by_cases hw : w a <;> by_cases hp : p a <;>
        simp [List.filter_cons, hw, hp] <;> omega

/-- The failure condition of the statistics queries is the pointwise
negation of the success condition. -/
theorem isFailedCode_eq_not_isSuccessCode (oc : Option Int) :
    isFailedCode oc = !isSuccessCode oc := by
  cases oc with
  | none => rfl
  | some c =>
      simp only [isFailedCode, isSuccessCode]
      by_cases h1 : c < 200 <;> by_cases h2 : 300 ≤ c <;>
        (simp [h1, h2]; try omega)

/-- Inserting into a sorted list is a permutation of consing. -/
theorem insertSorted_perm (le : α → α → Bool) (a : α) (l : List α) :
    (insertSorted le a l).Perm (a :: l) := by
  induction l with
  | nil => exact List.Perm.refl _
  | cons b t ih =>
      simp only [insertSorted]
      split
      · exact List.Perm.refl _
      · exact (ih.cons b).trans (List.Perm.swap a b t)

/-- Insertion sort permutes its input. -/
theorem sortBy_perm (le : α → α → Bool) (l : List α) :
    (sortBy le l).Perm l := by
  induction l with
  | nil => exact List.Perm.refl _
  | cons a t ih =>
      simp only [sortBy, List.foldr_cons]
      exact (insertSorted_perm le a _).trans (ih.cons a)

/-- Membership is invariant under the modelled ORDER BY. -/
theorem mem_sortBy {le : α → α → Bool} {a : α} {l : List α} :
    a ∈ sortBy le l ↔ a ∈ l :=
  (sortBy_perm le l).mem_iff

/-- Unfolding `sqlMaxId` once the accumulator holds a value. -/
theorem sqlMaxId_go (t : List PingRow) : ∀ (m : Nat),
    t.foldl (fun acc r =>
      match acc with
      | none => some r.id
      | some m0 => some (max m0 r.id)) (some m) = some (maxFrom m t) := by
  induction t with
  | nil => intro m; rfl
  | cons x t ih =>
      intro m
      simpa [maxFrom] using ih (max m x.id)

/-- `sqlMaxId` on a nonempty row set is the fold of `max` over the ids. -/
theorem sqlMaxId_cons (r : PingRow) (t : List PingRow) :
    sqlMaxId (r :: t) = some (maxFrom r.id t) := by
  simpa [sqlMaxId] using sqlMaxId_go t r.id

/-- The starting value bounds the fold from below. -/
theorem le_maxFrom (m : Nat) (l : List PingRow) : m ≤ maxFrom m l := by
  induction l generalizing m with
  | nil => exact Nat.le_refl m
  | cons x t ih =>
      exact Nat.le_trans (Nat.le_max_left m x.id) (by simpa [maxFrom] using ih (max m x.id))

/-- Every listed id bounds the fold from below. -/
theorem mem_le_maxFrom {r : PingRow} {l : List PingRow} (h : r ∈ l) (m : Nat) :
    r.id ≤ maxFrom m l := by
  induction l generalizing m with
  | nil => cases h
  | cons x t ih =>
      rcases List.mem_cons.mp h with h1 | h1
      · subst h1
        exact Nat.le_trans (Nat.le_max_right m r.id) (by simpa [maxFrom] using le_maxFrom (max m r.id) t)
      · simpa [maxFrom] using ih h1 (max m x.id)

/-- The fold is bounded by any common upper bound. -/
theorem maxFrom_le {m k : Nat} {l : List PingRow} (h1 : m ≤ k)
    (h2 : ∀ r ∈ l, r.id ≤ k) : maxFrom m l ≤ k := by
  induction l generalizing m with
  | nil => exact h1
  | cons x t ih =>
      have hx : max m x.id ≤ k := max_le h1 (h2 x (List.mem_cons_self x t))
      simpa [maxFrom] using ih hx (fun r hr => h2 r (List.mem_cons_of_mem x hr))

/-- The fold is attained: it is the starting value or some listed id. -/
theorem maxFrom_attained (m : Nat) (l : List PingRow) :
    maxFrom m l = m ∨ ∃ r ∈ l, maxFrom m l = r.id := by
  induction l generalizing m with
  | nil => exact Or.inl rfl
  | cons x t ih =>
      have hstep : maxFrom m (x :: t) = maxFrom (max m x.id) t := by simp [maxFrom]
      rcases ih (max m x.id) with h | ⟨r, hr, hre⟩
      · rcases Nat.le_total x.id m with hxm | hxm
        · left
          rw [hstep, h]
          exact Nat.max_eq_left hxm
        · right
          exact ⟨x, List.mem_cons_self x t, by rw [hstep, h]; exact Nat.max_eq_right hxm⟩
      · exact Or.inr ⟨r, List.mem_cons_of_mem x hr, by rw [hstep, hre]⟩

/-- Characterisation of the SQL `MAX(id)` aggregate: it returns `k` exactly
when `k` is a listed id and bounds every listed id. -/
theorem sqlMaxId_eq_some_iff (l : List PingRow) (k : Nat) :
    sqlMaxId l = some k ↔ ((∃ r ∈ l, r.id = k) ∧ ∀ r ∈ l, r.id ≤ k) := by
  cases l with
  | nil => simp [sqlMaxId]
  | cons r t =>
      rw [sqlMaxId_cons]
      constructor
      · intro h
        have hk : maxFrom r.id t = k := Option.some.inj h
        constructor
        · rcases maxFrom_attained r.id t with h1 | ⟨x, hx, hxe⟩
          · exact ⟨r, List.mem_cons_self r t, by rw [← hk, h1]⟩
          · exact ⟨x, List.mem_cons_of_mem r hx, by rw [← hk, hxe]⟩
        · intro x hx
          rcases List.mem_cons.mp hx with h1 | h1
          · subst h1
            rw [← hk]
            exact le_maxFrom x.id t
          · rw [← hk]
            exact mem_le_maxFrom h1 r.id
      · rintro ⟨⟨r0, hr0, hr0k⟩, hb⟩
        have hle : maxFrom r.id t ≤ k :=
          maxFrom_le (hb r (List.mem_cons_self r t))
            (fun x hx => hb x (List.mem_cons_of_mem r hx))
        have hge : k ≤ maxFrom r.id t := by
          rcases List.mem_cons.mp hr0 with h1 | h1
          · rw [← hr0k, h1]
            exact le_maxFrom r.id t
          · rw [← hr0k]
            exact mem_le_maxFrom h1 r.id
        rw [Nat.le_antisymm hle hge]

/-- `sqlMaxId` yields a value on every nonempty row set. -/
theorem sqlMaxId_of_ne_nil {l : List PingRow} (h : l ≠ []) :
    ∃ k, sqlMaxId l = some k := by
  cases l with
  | nil => exact absurd rfl h
  | cons r t => exact ⟨maxFrom r.id t, sqlMaxId_cons r t⟩

/-- Appending an entry to an inner bucket adds exactly that keyed entry. -/
theorem innerEntries_addInner (cn : String) (e : StatusEntry) (l : CountryBuckets) :
    (innerEntries (addInner cn e l)).Perm ((cn, e) :: innerEntries l) := by
  induction l with
  | nil => simp [addInner, innerEntries]
  | cons b t ih =>
      obtain ⟨c, es⟩ := b
      by_cases hc : cn = c
      · subst hc
        have hstep : addInner cn e ((cn, es) :: t) = (cn, es ++ [e]) :: t := by
          simp [addInner]
        rw [hstep]
        simp only [innerEntries, List.flatMap_cons, List.map_append, List.map_cons,
          List.map_nil]
        rw [List.append_assoc]
        exact List.perm_middle
      · have hstep : addInner cn e ((c, es) :: t) = (c, es) :: addInner cn e t := by
          simp [addInner, hc]
        rw [hstep]
        simp only [innerEntries, List.flatMap_cons]
        exact (List.Perm.append_left _ ih).trans List.perm_middle

/-- Appending an entry to the nested dictionary adds exactly that keyed
entry. -/
theorem groupedEntries_addGrouped (gn cn : String) (e : StatusEntry) (l : GroupedStatus) :
    (groupedEntries (addGrouped gn cn e l)).Perm ((gn, cn, e) :: groupedEntries l) := by
  induction l with
  | nil => simp [addGrouped, addInner, groupedEntries, innerEntries]
  | cons b t ih =>
      obtain ⟨g0, inner⟩ := b
      by_cases hg : gn = g0
      · subst hg
        have hstep : addGrouped gn cn e ((gn, inner) :: t)
            = (gn, addInner cn e inner) :: t := by
          simp [addGrouped]
        rw [hstep]
        simp only [groupedEntries, List.flatMap_cons]
        refine (List.Perm.append_right _ ((innerEntries_addInner cn e inner).map _)).trans ?_
        simp only [List.map_cons]
        exact List.Perm.refl _
      · have hstep : addGrouped gn cn e ((g0, inner) :: t)
            = (g0, inner) :: addGrouped gn cn e t := by
          simp [addGrouped, hg]
        rw [hstep]
        simp only [groupedEntries, List.flatMap_cons]
        exact (List.Perm.append_left _ ih).trans List.perm_middle

/-- Folding the selected rows into the nested dictionary yields exactly the
keyed entries of the rows, up to permutation. -/
theorem groupedEntries_foldl (rows : List (UrlRow × PingRow)) :
    ∀ (acc : GroupedStatus),
      (groupedEntries (rows.foldl
        (fun acc0 p => addGrouped p.1.group_name (countryLabel p.1.country_code) (entryOf p) acc0)
        acc)).Perm
      (groupedEntries acc ++ rows.map
        (fun p => (p.1.group_name, countryLabel p.1.country_code, entryOf p))) := by
  induction rows with
  | nil => intro acc; simp
  | cons p t ih =>
      intro acc
      simp only [List.foldl_cons, List.map_cons]
      refine (ih _).trans ?_
      refine (List.Perm.append_right _ (groupedEntries_addGrouped _ _ _ acc)).trans ?_
      exact List.perm_middle.symm

/-- The entries of the dictionary returned by `get_latest_status_by_group`
are exactly the keyed projections of the selected rows. -/
theorem mem_groupedEntries (db : DB) (cutoff : Int) (x : String × String × StatusEntry) :
    x ∈ groupedEntries (get_latest_status_by_group db cutoff) ↔
      x ∈ (latest_status_rows db cutoff).map
        (fun p => (p.1.group_name, countryLabel p.1.country_code, entryOf p)) := by
  have h := (groupedEntries_foldl (latest_status_rows db cutoff) []).mem_iff (a := x)
  simpa [get_latest_status_by_group, groupedEntries] using h

/-- Membership in the inner join of `ping_results` with `urls`. -/
theorem mem_pingsJoinUrls (db : DB) (u : UrlRow) (r : PingRow) :
    (u, r) ∈ pingsJoinUrls db ↔ r ∈ db.pings ∧ u ∈ db.urls ∧ u.id = r.url_id := by
  simp only [pingsJoinUrls, List.mem_flatMap, List.mem_map, List.mem_filter,
    Prod.mk.injEq]
  constructor
  · rintro ⟨r0, hr0, u0, ⟨hu0, hid⟩, hequ, heqr⟩
    subst hequ
    subst heqr
    exact ⟨hr0, hu0, beq_iff_eq.mp hid⟩
  · rintro ⟨hr, hu, hid⟩
    exact ⟨r, hr, u, ⟨hu, beq_iff_eq.mpr hid⟩, rfl, rfl⟩

/-- Membership in the rows selected by `get_latest_status_by_group`. -/
theorem mem_latest_status_rows (db : DB) (cutoff : Int) (u : UrlRow) (r : PingRow) :
    (u, r) ∈ latest_status_rows db cutoff ↔
      (r ∈ db.pings ∧ u ∈ db.urls ∧ u.id = r.url_id ∧ inWindow cutoff r = true ∧
        sqlMaxId (inWindowPingsFor db cutoff r.url_id) = some r.id) := by
  rw [latest_status_rows, mem_sortBy, List.mem_filter, mem_pingsJoinUrls]
  simp only [Bool.and_eq_true, beq_iff_eq]
  tauto

/-- Membership in the per-target in-window row set. -/
theorem mem_inWindowPingsFor (db : DB) (cutoff : Int) (uid : Nat) (r : PingRow) :
    r ∈ inWindowPingsFor db cutoff uid ↔
      r ∈ db.pings ∧ r.url_id = uid ∧ inWindow cutoff r = true := by
  simp only [inWindowPingsFor, List.mem_filter, Bool.and_eq_true, beq_iff_eq]

/-- C10: for every window and every state of the results table,
`get_statistics` satisfies `successful_pings + failed_pings = total_pings`:
the success predicate (status code present and in `[200, 300)`) and the
failure predicate (status code absent, below 200 or at least 300)
partition the in-window results. -/
theorem get_statistics_partition (db : DB) (cutoff : Int) :
    (get_statistics db cutoff).successful_pings + (get_statistics db cutoff).failed_pings
      = (get_statistics db cutoff).total_pings := by
  have hcong : ∀ r ∈ db.pings,
      (inWindow cutoff r && isFailedCode r.status_code)
        = (inWindow cutoff r && !isSuccessCode r.status_code) := by
    intro r _
    rw [isFailedCode_eq_not_isSuccessCode]
  simp only [get_statistics]
  rw [List.filter_congr hcong]
  exact length_filter_and_add (fun r => inWindow cutoff r)
    (fun r => isSuccessCode r.status_code) db.pings

/-- C8: `get_statistics` reports
`success_rate = successful_pings / total_pings * 100` whenever there is at
least one in-window probe, and `success_rate = 0` (not an error or NaN)
when there is none. -/
theorem get_statistics_success_rate (db : DB) (cutoff : Int) :
    ((get_statistics db cutoff).total_pings = 0 →
      (get_statistics db cutoff).success_rate = 0)
  ∧ (0 < (get_statistics db cutoff).total_pings →
      (get_statistics db cutoff).success_rate
        = ((get_statistics db cutoff).successful_pings : ℚ)
            / ((get_statistics db cutoff).total_pings : ℚ) * 100) := by
  constructor
  · intro h
    simp only [get_statistics] at h ⊢
    rw [if_neg (by omega)]
  · intro h
    simp only [get_statistics] at h ⊢
    rw [if_pos h]

/-- Witness for C8 on concrete stores: an empty window yields rate 0, a
one-probe window yields the quotient formula. -/
theorem get_statistics_success_rate_witness :
    (get_statistics ⟨[], [], 1, 1⟩ 0).success_rate = 0
  ∧ (get_statistics ⟨[], [⟨1, 1, some 200, none, none, 0⟩], 1, 2⟩ 0).success_rate
      = ((get_statistics ⟨[], [⟨1, 1, some 200, none, none, 0⟩], 1, 2⟩ 0).successful_pings : ℚ)
          / ((get_statistics ⟨[], [⟨1, 1, some 200, none, none, 0⟩], 1, 2⟩ 0).total_pings : ℚ)
          * 100 :=
  ⟨(get_statistics_success_rate ⟨[], [], 1, 1⟩ 0).1 (by decide),
   (get_statistics_success_rate ⟨[], [⟨1, 1, some 200, none, none, 0⟩], 1, 2⟩ 0).2 (by decide)⟩

/-! ## Claims about `ping_url` -/

/-- C2 (against the code): an SSL/TLS certificate failure raised by
`session.get` is an instance of `requests.exceptions.ConnectionError`
(`SSLError` subclasses it), and the `except ConnectionError` clause at line
81 of `ping_service.py` precedes the `except SSLError` clause at line 95,
so the outcome is classified `"Connection error"`, not
`"SSL certificate error"` as the specification states; the SSL branch is
unreachable. -/
theorem ping_url_sslError_is_connection_error :
    (ping_url 0 (.raised .sslError)).error_message = some "Connection error"
  ∧ ¬ (ping_url 0 (.raised .sslError)).error_message = some "SSL certificate error" := by
  constructor
  · rfl
  · intro h
    simp [ping_url, isTimeoutInstance, isConnectionErrorInstance] at h

/-- C4: for every outcome of a probe, the `success` flag holds exactly
when a status code is present and lies in `[200, 300)`, and the error
classification text is present exactly when the status code is absent. -/
theorem ping_url_success_iff (elapsed : ℚ) (o : TransportOutcome) :
    ((ping_url elapsed o).success = true ↔
      ∃ c, (ping_url elapsed o).status_code = some c ∧ 200 ≤ c ∧ c < 300)
  ∧ ((ping_url elapsed o).error_message.isSome = true ↔
      (ping_url elapsed o).status_code = none) := by
  cases o with
  | response status =>
      constructor
      · simp [ping_url]
      · simp [ping_url]
  | raised e =>
      cases e <;>
        simp [ping_url, isTimeoutInstance, isConnectionErrorInstance, isSSLErrorInstance]

/-! ## Claims about `add_ping_result` -/

/-- C5 (against the code): `add_ping_result` performs no existence check
on its target id and the sqlite connection never enables foreign-key
enforcement, so recording a result against a target id that references no
row of `urls` succeeds and inserts an orphan row instead of failing with
an unknown-target error. -/
theorem add_ping_result_unknown_target_inserts :
    (¬ ∃ u ∈ (⟨[], [], 1, 1⟩ : DB).urls, u.id = 999)
  ∧ (add_ping_result ⟨[], [], 1, 1⟩ 999 none none none 0).pings.length
      = (⟨[], [], 1, 1⟩ : DB).pings.length + 1
  ∧ ∃ r ∈ (add_ping_result ⟨[], [], 1, 1⟩ 999 none none none 0).pings,
      r.url_id = 999 := by
  refine ⟨by simp, rfl, ⟨⟨1, 999, none, none, none, 0⟩, by simp [add_ping_result], rfl⟩⟩

/-! ## Claims about `add_url` -/

/-- The conflict-branch UPDATE preserves the url column. -/
theorem upsert_preserves_url (u g : String) (c : Option String) (w : UrlRow) :
    (if w.url == u then { w with group_name := g, country_code := c } else w).url
      = w.url := by
  split <;> rfl

/-- The conflict-branch UPDATE preserves the id column. -/
theorem upsert_preserves_id (u g : String) (c : Option String) (w : UrlRow) :
    (if w.url == u then { w with group_name := g, country_code := c } else w).id
      = w.id := by
  split <;> rfl

/-- Composing the url test with the conflict-branch UPDATE is the url test
itself. -/
theorem url_test_comp_upsert (u g : String) (c : Option String) :
    ((fun w : UrlRow => w.url == u) ∘
      fun w => if w.url == u then { w with group_name := g, country_code := c } else w)
      = fun w : UrlRow => w.url == u := by
  funext w
  simp only [Function.comp]
  rw [upsert_preserves_url]

/-- Composing the id projection with the conflict-branch UPDATE is the id
projection itself. -/
theorem id_comp_upsert (u g : String) (c : Option String) :
    ((fun w : UrlRow => w.id) ∘
      fun w => if w.url == u then { w with group_name := g, country_code := c } else w)
      = fun w : UrlRow => w.id := by
  funext w
  simp only [Function.comp]
  rw [upsert_preserves_id]

/-- Evaluation of `add_url` on the conflict branch: when a row with the
url exists, the table is mapped through the UPDATE and the id of the first
row with that url is returned. -/
theorem add_url_on_existing (db : DB) (u g : String) (c : Option String) (t : Int)
    (hany : db.urls.any (fun w => w.url == u) = true) :
    add_url db u g c t
      = ({ db with
           urls := db.urls.map (fun w =>
             if w.url == u then { w with group_name := g, country_code := c } else w) },
         (db.urls.find? (fun w => w.url == u)).map (fun w => w.id)) := by
  simp only [add_url, hany, if_true]
  rw [List.find?_map, url_test_comp_upsert, Option.map_map, id_comp_upsert]

/-- Evaluation of `add_url` on the insert branch: when no row with the url
exists, a fresh row is appended and the fresh id returned. -/
theorem add_url_on_new (db : DB) (u g : String) (c : Option String) (t : Int)
    (hany : db.urls.any (fun w => w.url == u) = false) :
    add_url db u g c t
      = ({ db with
           urls := db.urls ++ [⟨db.nextUrlId, u, g, c, t⟩]
           nextUrlId := db.nextUrlId + 1 },
         some db.nextUrlId) := by
  simp only [add_url, hany]
  rfl

/-- C3: calling `add_url` twice with the same url returns the same id both
times (and an id is returned), the second call's group and country values
overwrite the first's, and exactly one row for that url exists afterwards
(given that the UNIQUE constraint held before: no two rows share a url). -/
theorem add_url_upsert_idempotent (db : DB) (u g1 g2 : String)
    (c1 c2 : Option String) (t1 t2 : Int)
    (hnodup : (db.urls.map (fun w => w.url)).Nodup) :
    (add_url (add_url db u g1 c1 t1).1 u g2 c2 t2).2 = (add_url db u g1 c1 t1).2
  ∧ (add_url db u g1 c1 t1).2.isSome = true
  ∧ ((add_url (add_url db u g1 c1 t1).1 u g2 c2 t2).1.urls.filter
      (fun w => w.url == u)).length = 1
  ∧ ∀ w ∈ (add_url (add_url db u g1 c1 t1).1 u g2 c2 t2).1.urls,
      w.url = u → w.group_name = g2 ∧ w.country_code = c2 := by
  rcases (Bool.eq_false_or_eq_true (db.urls.any (fun w => w.url == u))).symm with hany | hany
  · -- the url is new: insert, then the second call hits the conflict branch
    rw [add_url_on_new db u g1 c1 t1 hany]
    have hp1 : ((⟨db.nextUrlId, u, g1, c1, t1⟩ : UrlRow).url == u) = true :=
      beq_iff_eq.mpr rfl
    have hany1 : ((db.urls ++ [(⟨db.nextUrlId, u, g1, c1, t1⟩ : UrlRow)]).any
        (fun w => w.url == u)) = true := by
      rw [List.any_append]
      simp [hp1]
    rw [add_url_on_existing _ u g2 c2 t2 hany1]
    have hnone : db.urls.find? (fun w => w.url == u) = none :=
      List.find?_eq_none.mpr (List.any_eq_false.mp hany)
    have hnil : db.urls.filter (fun w => w.url == u) = [] :=
      List.filter_eq_nil_iff.mpr (List.any_eq_false.mp hany)
    refine ⟨?_, rfl, ?_, ?_⟩
    · rw [List.find?_append, hnone]
      simp [List.find?_cons, hp1]
    · rw [List.filter_map, url_test_comp_upsert, List.length_map,
        List.filter_append, hnil]
      simp [List.filter_cons, hp1]
    · intro w hw hwu
      obtain ⟨v, hv, hveq⟩ := List.mem_map.mp hw
      rcases List.mem_append.mp hv with hv0 | hv0
      · exfalso
        have hne := List.any_eq_false.mp hany v hv0
        have h1 : w.url = v.url := by rw [← hveq, upsert_preserves_url]
        exact hne (beq_iff_eq.mpr (h1 ▸ hwu))
      · have hv1 : v = (⟨db.nextUrlId, u, g1, c1, t1⟩ : UrlRow) :=
          List.mem_singleton.mp hv0
        have hbeq : (v.url == u) = true := beq_iff_eq.mpr (by rw [hv1])
        rw [← hveq, if_pos hbeq]
        exact ⟨rfl, rfl⟩
  · -- the url is already registered: both calls take the conflict branch
    rw [add_url_on_existing db u g1 c1 t1 hany]
    have hany1 : (db.urls.map
        (fun w => if w.url == u then { w with group_name := g1, country_code := c1 } else w)).any
        (fun w => w.url == u) = true := by
      rw [List.any_map, url_test_comp_upsert]
      exact hany
    rw [add_url_on_existing _ u g2 c2 t2 hany1]
    refine ⟨?_, ?_, ?_, ?_⟩
    · rw [List.find?_map, url_test_comp_upsert, Option.map_map, id_comp_upsert]
    · have h1 : (db.urls.find? (fun w => w.url == u)).isSome = true :=
        List.find?_isSome.mpr (List.any_eq_true.mp hany)
      obtain ⟨w, hw⟩ := Option.isSome_iff_exists.mp h1
      rw [hw]
      rfl
    · rw [List.filter_map, url_test_comp_upsert, List.length_map,
        List.filter_map, url_test_comp_upsert, List.length_map]
      have hle : db.urls.countP (fun w => w.url == u) ≤ 1 := by
        have h1 := (List.nodup_iff_count_le_one.mp hnodup) u
        rwa [List.count_eq_countP, List.countP_map] at h1
      have hge : 0 < db.urls.countP (fun w => w.url == u) := by
        obtain ⟨w, hw, hwu⟩ := List.any_eq_true.mp hany
        have hmem : u ∈ db.urls.map (fun w => w.url) :=
          List.mem_map.mpr ⟨w, hw, beq_iff_eq.mp hwu⟩
        have h2 := List.count_pos_iff.mpr hmem
        rwa [List.count_eq_countP, List.countP_map] at h2
      rw [← List.countP_eq_length_filter]
      omega
    · intro w hw hwu
      obtain ⟨v, hv, hveq⟩ := List.mem_map.mp hw
      have hvurl : v.url = u := by
        have h1 : w.url = v.url := by rw [← hveq, upsert_preserves_url]
        rw [← h1, hwu]
      have hbeq : (v.url == u) = true := beq_iff_eq.mpr hvurl
      rw [← hveq, if_pos hbeq]
      exact ⟨rfl, rfl⟩

/-- Witness for C3 on a concrete store: registering the same url twice
into an empty registry. -/
theorem add_url_upsert_idempotent_witness :
    ((⟨[], [], 1, 1⟩ : DB).urls.map (fun w => w.url)).Nodup
  ∧ ((add_url (add_url ⟨[], [], 1, 1⟩ "http://x" "g1" none 5).1
        "http://x" "g2" (some "US") 7).2
      = (add_url (⟨[], [], 1, 1⟩ : DB) "http://x" "g1" none 5).2
    ∧ (add_url (⟨[], [], 1, 1⟩ : DB) "http://x" "g1" none 5).2.isSome = true
    ∧ ((add_url (add_url ⟨[], [], 1, 1⟩ "http://x" "g1" none 5).1
          "http://x" "g2" (some "US") 7).1.urls.filter
        (fun w => w.url == "http://x")).length = 1
    ∧ ∀ w ∈ (add_url (add_url ⟨[], [], 1, 1⟩ "http://x" "g1" none 5).1
          "http://x" "g2" (some "US") 7).1.urls,
        w.url = "http://x" → w.group_name = "g2" ∧ w.country_code = some "US") :=
  ⟨by simp,
   add_url_upsert_idempotent ⟨[], [], 1, 1⟩ "http://x" "g1" "g2" none (some "US") 5 7
     (by simp)⟩

/-! ## Claims about the grouped statistics views -/

/-- The group key of a statistics row is its GROUP BY key. -/
theorem group_stats_row_group_name (db : DB) (cutoff : Int) (g : String) :
    (group_stats_row db cutoff g).group_name = g := rfl

/-- A url always contributes at least one LEFT JOIN row (possibly
NULL-extended). -/
theorem leftJoinPings_ne_nil (db : DB) (cutoff : Int) (u : UrlRow) :
    leftJoinPings db cutoff u ≠ [] := by
  simp only [leftJoinPings]
  split
  · simp
  · rename_i h
    intro hmap
    rw [List.map_eq_nil_iff] at hmap
    exact h (by rw [hmap]; rfl)

/-- C7: `get_group_statistics` returns one row for exactly the groups that
have registered targets — including groups with zero in-window probes —
and a zero-probe group's row reports success rate 0, failure rate 0 and
average response time 0 rather than null or an error. -/
theorem group_statistics_rows (db : DB) (cutoff : Int) (g : String) :
    ((∃ u ∈ db.urls, u.group_name = g) ↔
      ∃ row ∈ get_group_statistics db cutoff, row.group_name = g)
  ∧ (∀ row ∈ get_group_statistics db cutoff, row.group_name = g →
      (∀ u ∈ db.urls, u.group_name = g → ∀ r ∈ db.pings, r.url_id = u.id →
        inWindow cutoff r = false) →
      row.success_rate = 0 ∧ row.failure_rate = 0 ∧ row.avg_response_time = 0) := by
  constructor
  · constructor
    · rintro ⟨u, hu, hg⟩
      refine ⟨group_stats_row db cutoff g, ?_, group_stats_row_group_name db cutoff g⟩
      apply List.mem_map.mpr
      refine ⟨g, ?_, rfl⟩
      rw [distinctGroups, mem_sortBy, List.mem_dedup]
      exact List.mem_map.mpr ⟨u, hu, hg⟩
    · rintro ⟨row, hrow, hname⟩
      obtain ⟨g0, hg0, hrow0⟩ := List.mem_map.mp hrow
      have hgg : g0 = g := by rw [← hname, ← hrow0, group_stats_row_group_name]
      subst hgg
      rw [distinctGroups, mem_sortBy, List.mem_dedup] at hg0
      obtain ⟨u, hu, hgu⟩ := List.mem_map.mp hg0
      exact ⟨u, hu, hgu⟩
  · intro row hrow hname hzero
    obtain ⟨g0, hg0, hrow0⟩ := List.mem_map.mp hrow
    have hgg : g0 = g := by rw [← hname, ← hrow0, group_stats_row_group_name]
    subst hgg
    subst hrow0
    have hallnone : ∀ p ∈ groupRows db cutoff g0, p.2 = none := by
      intro p hp
      obtain ⟨u, hu, hpu⟩ := List.mem_flatMap.mp hp
      obtain ⟨hu1, hu2⟩ := List.mem_filter.mp hu
      have hgu : u.group_name = g0 := beq_iff_eq.mp hu2
      have hwin : inWindowPingsFor db cutoff u.id = [] := by
        rw [inWindowPingsFor, List.filter_eq_nil_iff]
        intro r hrp
        simp only [Bool.and_eq_true, beq_iff_eq, not_and]
        intro hru
        rw [hzero u hu1 hgu r hrp hru]
        simp
      have hlj : leftJoinPings db cutoff u = [(u, none)] := by
        simp only [leftJoinPings, hwin, List.isEmpty_nil, if_true]
      rw [hlj] at hpu
      rw [List.mem_singleton.mp hpu]
    have hfm : (groupRows db cutoff g0).filterMap (fun p => p.2) = [] :=
      List.filterMap_eq_nil_iff.mpr hallnone
    have hfm2 : (groupRows db cutoff g0).filterMap
        (fun p => p.2.bind (fun r => r.response_time)) = [] := by
      rw [List.filterMap_eq_nil_iff]
      intro p hp
      rw [hallnone p hp]
      rfl
    refine ⟨?_, ?_, ?_⟩
    · show pyRound1 _ = 0
      rw [hfm]
      norm_num [pyRound1, roundHalfEven]
    · show pyRound1 _ = 0
      rw [hfm]
      norm_num [pyRound1, roundHalfEven]
    · show avgField (sqlAvg _) = 0
      rw [hfm2]
      simp [sqlAvg, avgField]

/-- Witness for C7 on a concrete store: one registered target in group
`"a"` and an empty results table; the group's row is present with all
rates and the average at 0. -/
theorem group_statistics_rows_witness :
    (group_stats_row ⟨[⟨1, "x", "a", none, 0⟩], [], 2, 1⟩ 0 "a"
        ∈ get_group_statistics ⟨[⟨1, "x", "a", none, 0⟩], [], 2, 1⟩ 0
      ∧ (group_stats_row ⟨[⟨1, "x", "a", none, 0⟩], [], 2, 1⟩ 0 "a").group_name = "a"
      ∧ (∀ u ∈ (⟨[⟨1, "x", "a", none, 0⟩], [], 2, 1⟩ : DB).urls, u.group_name = "a" →
          ∀ r ∈ (⟨[⟨1, "x", "a", none, 0⟩], [], 2, 1⟩ : DB).pings, r.url_id = u.id →
            inWindow 0 r = false))
  ∧ ((group_stats_row ⟨[⟨1, "x", "a", none, 0⟩], [], 2, 1⟩ 0 "a").success_rate = 0
      ∧ (group_stats_row ⟨[⟨1, "x", "a", none, 0⟩], [], 2, 1⟩ 0 "a").failure_rate = 0
      ∧ (group_stats_row ⟨[⟨1, "x", "a", none, 0⟩], [], 2, 1⟩ 0 "a").avg_response_time = 0) := by
  have hmem : group_stats_row ⟨[⟨1, "x", "a", none, 0⟩], [], 2, 1⟩ 0 "a"
      ∈ get_group_statistics ⟨[⟨1, "x", "a", none, 0⟩], [], 2, 1⟩ 0 := by
    apply List.mem_map.mpr
    refine ⟨"a", ?_, rfl⟩
    rw [distinctGroups, mem_sortBy, List.mem_dedup]
    simp
  have hz : ∀ u ∈ (⟨[⟨1, "x", "a", none, 0⟩], [], 2, 1⟩ : DB).urls, u.group_name = "a" →
      ∀ r ∈ (⟨[⟨1, "x", "a", none, 0⟩], [], 2, 1⟩ : DB).pings, r.url_id = u.id →
        inWindow 0 r = false := by
    intro u hu hgu r hrp
    simp at hrp
  exact ⟨⟨hmem, rfl, hz⟩,
    (group_statistics_rows ⟨[⟨1, "x", "a", none, 0⟩], [], 2, 1⟩ 0 "a").2 _ hmem rfl hz⟩

/-! ## Claims about the country views -/

/-- C9: a target whose country label is null is bucketed by
`get_country_statistics` under the literal label `"Unknown"`, and
`get_all_requests_for_country` queried with country `"Unknown"` returns
that target's in-window results. -/
theorem null_country_is_unknown (db : DB) (cutoff : Int) (g : String) (u : UrlRow)
    (r : PingRow) (hu : u ∈ db.urls) (hg : u.group_name = g)
    (hc : u.country_code = none) (hr : r ∈ db.pings) (hru : r.url_id = u.id)
    (hw : inWindow cutoff r = true) :
    (∃ row ∈ get_country_statistics db g cutoff,
        row.country_code = "Unknown" ∧ 0 < row.total_urls)
  ∧ (u, r) ∈ all_requests_rows db g "Unknown" cutoff
  ∧ ∃ q ∈ get_all_requests_for_country db g "Unknown" cutoff,
      q.url = u.url ∧ q.timestamp = r.timestamp ∧ q.status_code = r.status_code := by
  have hmemrow : (u, r) ∈ all_requests_rows db g "Unknown" cutoff := by
    rw [all_requests_rows, mem_sortBy, List.mem_filter]
    refine ⟨(mem_pingsJoinUrls db u r).mpr ⟨hr, hu, hru.symm⟩, ?_⟩
    simp only [Bool.and_eq_true]
    refine ⟨⟨beq_iff_eq.mpr hg, ?_⟩, hw⟩
    rw [hc]
    decide
  have hkey : (none : Option String) ∈ distinctCountries db g := by
    rw [distinctCountries, mem_sortBy, List.mem_dedup]
    refine List.mem_map.mpr ⟨u, List.mem_filter.mpr ⟨hu, ?_⟩, hc⟩
    simp [beq_iff_eq, hg]
  have hrowmem : country_stats_row db cutoff g none ∈ get_country_statistics db g cutoff :=
    List.mem_map.mpr ⟨none, hkey, rfl⟩
  have hpos : 0 < (country_stats_row db cutoff g none).total_urls := by
    have hufilter : u ∈ db.urls.filter
        (fun u0 => u0.group_name == g && u0.country_code == (none : Option String)) := by
      refine List.mem_filter.mpr ⟨hu, ?_⟩
      simp [hg, hc]
    obtain ⟨p, hp⟩ := List.exists_mem_of_ne_nil _ (leftJoinPings_ne_nil db cutoff u)
    have hprows : p ∈ (db.urls.filter
        (fun u0 => u0.group_name == g && u0.country_code == (none : Option String))).flatMap
        (leftJoinPings db cutoff) :=
      List.mem_flatMap.mpr ⟨u, hufilter, hp⟩
    show 0 < (((db.urls.filter
        (fun u0 => u0.group_name == g && u0.country_code == (none : Option String))).flatMap
        (leftJoinPings db cutoff)).map (fun p0 => p0.1.id)).dedup.length
    rw [List.length_pos, ne_eq, List.dedup_eq_nil, List.map_eq_nil_iff]
    exact List.ne_nil_of_mem hprows
  refine ⟨⟨country_stats_row db cutoff g none, hrowmem, rfl, hpos⟩, hmemrow, ?_⟩
  exact ⟨_, List.mem_map.mpr ⟨(u, r), hmemrow, rfl⟩, rfl, rfl, rfl⟩

/-- Witness for C9 on a concrete store: one target in group `"g"` with a
null country and one in-window result; the Unknown bucket exists and the
all-requests view for `"Unknown"` matches the result. -/
theorem null_country_is_unknown_witness :
    ((⟨1, "http://x", "g", none, 0⟩ : UrlRow)
        ∈ (⟨[⟨1, "http://x", "g", none, 0⟩], [⟨1, 1, some 200, none, none, 5⟩], 2, 2⟩ : DB).urls
      ∧ (⟨1, 1, some 200, none, none, 5⟩ : PingRow)
        ∈ (⟨[⟨1, "http://x", "g", none, 0⟩], [⟨1, 1, some 200, none, none, 5⟩], 2, 2⟩ : DB).pings
      ∧ inWindow 0 (⟨1, 1, some 200, none, none, 5⟩ : PingRow) = true)
  ∧ ((⟨1, "http://x", "g", none, 0⟩ : UrlRow), (⟨1, 1, some 200, none, none, 5⟩ : PingRow))
      ∈ all_requests_rows
        ⟨[⟨1, "http://x", "g", none, 0⟩], [⟨1, 1, some 200, none, none, 5⟩], 2, 2⟩
        "g" "Unknown" 0 :=
  ⟨⟨by decide, by decide, by decide⟩,
   (null_country_is_unknown
      ⟨[⟨1, "http://x", "g", none, 0⟩], [⟨1, 1, some 200, none, none, 5⟩], 2, 2⟩ 0 "g"
      ⟨1, "http://x", "g", none, 0⟩ ⟨1, 1, some 200, none, none, 5⟩
      (by decide) rfl rfl (by decide) rfl (by decide)).2.1⟩

/-! ## Claims about `get_latest_status_by_group` -/

/-- C1: for every window, a row `(u, r)` is selected exactly when `r` is
an in-window result of target `u` whose id bounds every in-window result of
`u` (id, not timestamp, is the tie-break); a target with at least one
in-window result contributes exactly one row, and a target with zero
in-window results is omitted from the returned mapping. -/
theorem latest_status_per_target (db : DB) (cutoff : Int) (u : UrlRow)
    (hids : (db.pings.map (fun r => r.id)).Nodup)
    (hurls : (db.urls.map (fun w => w.url)).Nodup)
    (hu : u ∈ db.urls) :
    (∀ r : PingRow, (u, r) ∈ latest_status_rows db cutoff ↔
        (r ∈ db.pings ∧ r.url_id = u.id ∧ inWindow cutoff r = true ∧
          ∀ r2 ∈ db.pings, r2.url_id = u.id → inWindow cutoff r2 = true → r2.id ≤ r.id))
  ∧ ((∃ r ∈ db.pings, r.url_id = u.id ∧ inWindow cutoff r = true) →
      ∃! r : PingRow, (u, r) ∈ latest_status_rows db cutoff)
  ∧ (∀ gn cn e, (gn, cn, e) ∈ groupedEntries (get_latest_status_by_group db cutoff) →
      e.url = u.url →
      ∃ r : PingRow, (u, r) ∈ latest_status_rows db cutoff ∧ gn = u.group_name ∧
        cn = countryLabel u.country_code ∧ e = entryOf (u, r))
  ∧ ((∀ r ∈ db.pings, r.url_id = u.id → inWindow cutoff r = false) →
      ∀ gn cn e, (gn, cn, e) ∈ groupedEntries (get_latest_status_by_group db cutoff) →
        e.url ≠ u.url) := by
  have hchar : ∀ r : PingRow, (u, r) ∈ latest_status_rows db cutoff ↔
      (r ∈ db.pings ∧ r.url_id = u.id ∧ inWindow cutoff r = true ∧
        ∀ r2 ∈ db.pings, r2.url_id = u.id → inWindow cutoff r2 = true → r2.id ≤ r.id) := by
    intro r
    rw [mem_latest_status_rows]
    constructor
    · rintro ⟨hr, -, hid, hwin, hmax⟩
      refine ⟨hr, hid.symm, hwin, ?_⟩
      intro r2 hr2 hr2u hr2w
      have h2 := (sqlMaxId_eq_some_iff _ _).mp hmax
      exact h2.2 r2
        ((mem_inWindowPingsFor db cutoff r.url_id r2).mpr ⟨hr2, hr2u.trans hid, hr2w⟩)
    · rintro ⟨hr, hru, hwin, hbound⟩
      refine ⟨hr, hu, hru.symm, hwin, ?_⟩
      rw [sqlMaxId_eq_some_iff]
      refine ⟨⟨r, (mem_inWindowPingsFor db cutoff r.url_id r).mpr ⟨hr, rfl, hwin⟩, rfl⟩, ?_⟩
      intro r2 hr2
      obtain ⟨hr2p, hr2u, hr2w⟩ := (mem_inWindowPingsFor db cutoff r.url_id r2).mp hr2
      exact hbound r2 hr2p (hr2u.trans hru) hr2w
  have hcorr : ∀ gn cn e,
      (gn, cn, e) ∈ groupedEntries (get_latest_status_by_group db cutoff) →
      e.url = u.url →
      ∃ r : PingRow, (u, r) ∈ latest_status_rows db cutoff ∧ gn = u.group_name ∧
        cn = countryLabel u.country_code ∧ e = entryOf (u, r) := by
    intro gn cn e hmem hurl
    rw [mem_groupedEntries] at hmem
    obtain ⟨p, hp, hkey⟩ := List.mem_map.mp hmem
    obtain ⟨u2, r2⟩ := p
    simp only [Prod.mk.injEq] at hkey
    obtain ⟨hgn, hcn, he⟩ := hkey
    obtain ⟨hr2p, hu2, hid2, hw2, hm2⟩ := (mem_latest_status_rows db cutoff u2 r2).mp hp
    have hu2url : u2.url = u.url := by
      have h1 : e.url = u2.url := by rw [← he]; rfl
      rw [← h1, hurl]
    have hu2u : u2 = u := List.inj_on_of_nodup_map hurls hu2 hu hu2url
    subst hu2u
    exact ⟨r2, hp, hgn.symm, hcn.symm, he.symm⟩
  refine ⟨hchar, ?_, hcorr, ?_⟩
  · rintro ⟨r0, hr0, hr0u, hr0w⟩
    have hne : inWindowPingsFor db cutoff u.id ≠ [] :=
      List.ne_nil_of_mem ((mem_inWindowPingsFor db cutoff u.id r0).mpr ⟨hr0, hr0u, hr0w⟩)
    obtain ⟨k, hk⟩ := sqlMaxId_of_ne_nil hne
    obtain ⟨⟨rm, hrm, hrmk⟩, hbound⟩ := (sqlMaxId_eq_some_iff _ _).mp hk
    obtain ⟨hrmp, hrmu, hrmw⟩ := (mem_inWindowPingsFor db cutoff u.id rm).mp hrm
    have hmem : (u, rm) ∈ latest_status_rows db cutoff := by
      rw [hchar rm]
      refine ⟨hrmp, hrmu, hrmw, ?_⟩
      intro r2 hr2 hr2u hr2w
      have h3 := hbound r2 ((mem_inWindowPingsFor db cutoff u.id r2).mpr ⟨hr2, hr2u, hr2w⟩)
      omega
    refine ⟨rm, hmem, ?_⟩
    intro y hy
    obtain ⟨hyp, hyu, hyw, hybound⟩ := (hchar y).mp hy
    have h1 : y.id ≤ rm.id := ((hchar rm).mp hmem).2.2.2 y hyp hyu hyw
    have h2 : rm.id ≤ y.id := hybound rm hrmp hrmu hrmw
    exact List.inj_on_of_nodup_map hids hyp hrmp (Nat.le_antisymm h1 h2)
  · intro hnone gn cn e hmem hurl
    obtain ⟨r2, hr2mem, -, -, -⟩ := hcorr gn cn e hmem hurl
    obtain ⟨hr2p, hr2u, hr2w, -⟩ := (hchar r2).mp hr2mem
    have hfalse := hnone r2 hr2p hr2u
    rw [hr2w] at hfalse
    exact Bool.noConfusion hfalse

/-- Witness for C1 on the specification's example: results with ids 5 and
9 both inside the window, the id-9 result carrying the older timestamp;
the row selected for the target is the id-9 result. -/
theorem latest_status_per_target_witness :
    ((exampleDB.pings.map (fun r => r.id)).Nodup
      ∧ (exampleDB.urls.map (fun w => w.url)).Nodup
      ∧ (⟨1, "http://a", "g", none, 0⟩ : UrlRow) ∈ exampleDB.urls)
  ∧ ((⟨1, "http://a", "g", none, 0⟩ : UrlRow), (⟨9, 1, some 500, none, none, 3⟩ : PingRow))
      ∈ latest_status_rows exampleDB 0 :=
  ⟨⟨by decide, by decide, by decide⟩,
   ((latest_status_per_target exampleDB 0 ⟨1, "http://a", "g", none, 0⟩ (by decide) (by decide)
      (by decide)).1 ⟨9, 1, some 500, none, none, 3⟩).mpr (by decide)⟩

/-- C6 (counterexample): a `run_manual_ping` call arriving while a
scheduled round is executing starts a second concurrently executing round,
because the manual path calls `run_ping_round` directly and bypasses the
scheduler's `max_instances` guard: two rounds are then in flight. -/
theorem manual_overlaps_scheduled_round :
    roundsInFlight (schedRun schedInit [.tickFires, .manualCall]) = 2 := by
  rfl

/-- C6 (amended): the `max_instances = 1` job default does guarantee that
at most one *scheduled* round is in flight at any time, along every event
sequence; only the direct manual path can add a concurrent round. -/
theorem scheduled_rounds_never_overlap (evs : List SchedulerEvent) :
    (schedRun schedInit evs).jobInstances ≤ 1 := by
  suffices h : ∀ (l : List SchedulerEvent) (s : SchedulerState),
      s.jobInstances ≤ 1 → (schedRun s l).jobInstances ≤ 1 from
    h evs schedInit (by simp [schedInit])
  intro l
  induction l with
  | nil => intro s hs; exact hs
  | cons ev t ih =>
      intro s hs
      have h2 : (schedStep s ev).jobInstances ≤ 1 := by
        cases ev with
        | tickFires =>
            simp only [schedStep, maxInstances]
            split <;> (try simp) <;> omega
        | tickFinishes => simp only [schedStep]; omega
        | manualCall => simpa [schedStep] using hs
        | manualFinishes => simpa [schedStep] using hs
      simpa [schedRun] using ih (schedStep s ev) h2

end Crawler
